import Mathlib

/-!
Shallow embedding of the audio capture and post-processing pipeline of the
game2anki repository (src/audio/mod.rs, src/audio/encode.rs, src/config/types.rs).

Modelling conventions:
* `f32` audio samples are modelled as exact rationals (`ℚ`); the float literals
  0.95, 0.01 of the source become the exact rationals 19/20, 1/100.
* Machine integers (`u16`, `u32`, `u8`) are modelled as `ℕ`, with an explicit
  `% 256` where the source performs an `as u8` truncating cast.
* Fallible Rust functions returning `Result` are modelled with `Except String`.
* External libraries (libopus, LAME, the Ogg packet writer, WASAPI, the
  AnkiConnect HTTP client) are not part of the repository; each modelled stand-in
  is documented at its definition site.
-/

namespace G2A

/-- f32::abs, written out so the kernel can evaluate it on rationals. -/
def rabs (x : ℚ) : ℚ := if x < 0 then -x else x

/-- f32::max (the larger argument; no NaN in the rational model), written out so
the kernel can evaluate it. -/
def rmax (m x : ℚ) : ℚ := if m < x then x else m

/-- Rational multiplication written out on numerator/denominator pairs so the
kernel can evaluate it; `rmul_eq_mul` identifies it with field multiplication. -/
def rmul (a b : ℚ) : ℚ := Rat.divInt (a.num * b.num) (a.den * b.den)

/-- Rational division written out on numerator/denominator pairs so the kernel
can evaluate it; `rdivq_eq_div` identifies it with field division. -/
def rdivq (a b : ℚ) : ℚ := Rat.divInt (a.num * b.den) (a.den * b.num)

/-- Peak amplitude of a sample vector:
`samples.iter().map(|&x| x.abs()).fold(0.0f32, f32::max)` (audio/mod.rs:41). -/
def peakAmplitude (samples : List ℚ) : ℚ :=
  samples.foldl (fun m x => rmax m (rabs x)) 0

/-- AudioRecorder::normalize_audio (audio/mod.rs:40-49): if the peak amplitude is
strictly between 0 and 1, multiply every sample by `0.95 / peak`; otherwise leave
the vector unchanged. -/
def normalize_audio (samples : List ℚ) : List ℚ :=
  let maxAmplitude := peakAmplitude samples
  if 0 < maxAmplitude ∧ maxAmplitude < 1 then
    samples.map (fun s => rmul s (rdivq (mkRat 19 20) maxAmplitude))
  else
    samples

/-- Iterator::position: index of the first element satisfying `p` (audio/mod.rs:247-249). -/
def position (p : ℚ → Bool) : List ℚ → Option ℕ
  | [] => none
  | x :: xs => if p x then some 0 else (position p xs).map (· + 1)

/-- Iterator::rposition: index of the last element satisfying `p` (audio/mod.rs:252-254). -/
def rposition (p : ℚ → Bool) : List ℚ → Option ℕ
  | [] => none
  | x :: xs =>
    match rposition p xs with
    | some k => some (k + 1)
    | none => if p x then some 0 else none

/-- Start index of the trimmed range:
`samples.iter().position(|&x| x.abs() > threshold).unwrap_or(0)` (audio/mod.rs:247-250). -/
def trimStart (samples : List ℚ) (threshold : ℚ) : ℕ :=
  (position (fun x => decide (threshold < rabs x)) samples).getD 0

/-- End index (exclusive) of the trimmed range:
`samples.iter().rposition(|&x| x.abs() > threshold).map(|x| x + 1).unwrap_or(samples.len())`
(audio/mod.rs:252-256). -/
def trimEnd (samples : List ℚ) (threshold : ℚ) : ℕ :=
  match rposition (fun x => decide (threshold < rabs x)) samples with
  | some j => j + 1
  | none => samples.length

/-- AudioRecorder::trim_silence (audio/mod.rs:246-259): the Rust function returns the
slice `&samples[start..end]`, modelled as drop-then-take with the two indices above. -/
def trim_silence (samples : List ℚ) (threshold : ℚ) : List ℚ :=
  (samples.drop (trimStart samples threshold)).take
    (trimEnd samples threshold - trimStart samples threshold)

/-- Decidable test: the sample at index `k` (if any) has magnitude strictly above `t`. -/
def aboveAt (samples : List ℚ) (t : ℚ) (k : ℕ) : Bool :=
  match samples.get? k with
  | some y => decide (t < rabs y)
  | none => false

/-- Index `i` is the first index whose sample magnitude exceeds `t`. -/
def IsFirstAbove (samples : List ℚ) (t : ℚ) (i : ℕ) : Prop :=
  aboveAt samples t i = true ∧ ∀ k, k < i → aboveAt samples t k = false

/-- Index `j` is the last index whose sample magnitude exceeds `t`. -/
def IsLastAbove (samples : List ℚ) (t : ℚ) (j : ℕ) : Prop :=
  aboveAt samples t j = true ∧
    ∀ k, k < samples.length → j < k → aboveAt samples t k = false

instance (s : List ℚ) (t : ℚ) (i : ℕ) : Decidable (IsFirstAbove s t i) := by
  unfold IsFirstAbove
  infer_instance

instance (s : List ℚ) (t : ℚ) (j : ℕ) : Decidable (IsLastAbove s t j) := by
  unfold IsLastAbove
  infer_instance

/-- One logical Ogg packet as handed to the external `ogg` crate's PacketWriter
(encode.rs:66, 75, 90-95).  `lastInPage = true` models `PacketWriteEndInfo::EndPage`,
so the packet closes its own page. -/
structure OggPacket where
  data : List ℕ
  lastInPage : Bool
  granule : ℕ
deriving DecidableEq

/-- Little-endian bytes of a `u16` (`to_le_bytes`, encode.rs:60). -/
def le16 (n : ℕ) : List ℕ := [n % 256, n / 256 % 256]

/-- Little-endian bytes of a `u32` (`to_le_bytes`, encode.rs:61). -/
def le32 (n : ℕ) : List ℕ := [n % 256, n / 256 % 256, n / 65536 % 256, n / 16777216 % 256]

/-- The ASCII bytes of the string OpusHead (encode.rs:57). -/
def opusHeadMagic : List ℕ := [79, 112, 117, 115, 72, 101, 97, 100]

/-- The ASCII bytes of the string OpusTags (encode.rs:69). -/
def opusTagsMagic : List ℕ := [79, 112, 117, 115, 84, 97, 103, 115]

/-- The Ogg Opus ID header packet body built at encode.rs:55-65: magic, version 1,
channel count (`channels as u8`, hence `% 256`), pre-skip 312 little-endian,
original sample rate little-endian, output gain 0, channel mapping family 0. -/
def id_header (channels sample_rate : ℕ) : List ℕ :=
  opusHeadMagic ++ [1, channels % 256] ++ le16 312 ++ le32 sample_rate ++ [0, 0] ++ [0]

/-- The OpusTags comment packet body built at encode.rs:67-74: magic, vendor string
length 6 (little-endian), the four vendor bytes of rust, empty user comment list. -/
def comment_header : List ℕ :=
  opusTagsMagic ++ [6, 0, 0, 0] ++ [114, 117, 115, 116] ++ [0, 0, 0, 0]

/-- Fuel-indexed worker for `chunksOf`; the fuel is the list length, which suffices
because every recursive call removes at least one element when `n ≥ 1`. -/
def chunksGo (n : ℕ) : ℕ → List ℚ → List (List ℚ)
  | _, [] => []
  | 0, l => [l]
  | fuel + 1, x :: xs => (x :: xs).take n :: chunksGo n fuel ((x :: xs).drop n)

/-- Rust `slice::chunks(n)` (encode.rs:80, 149): split into consecutive chunks of
size `n`, the last one possibly shorter.  `slice::chunks` panics on `n = 0`; every
call site in the source has `n ≥ 960`, so the `n = 0` branch here is unreachable. -/
def chunksOf (n : ℕ) (l : List ℚ) : List (List ℚ) :=
  if n = 0 then (if l = [] then [] else [l]) else chunksGo n l.length l

/-- Zero-padding of the final chunk (encode.rs:82-85): `padded.resize(n, 0.0)`
applied only when the chunk is shorter than `n`. -/
def padChunk (n : ℕ) (chunk : List ℚ) : List ℚ :=
  if chunk.length < n then chunk ++ List.replicate (n - chunk.length) 0 else chunk

/-- Stand-in for the external libopus frame encoder `encoder.encode_float`
(encode.rs:87): the produced compressed bytes are opaque to the repository, so they
are modelled by an unspecified concrete byte list; only the container layout around
them is claimed. -/
def opus_encode_float (padded : List ℚ) : List ℕ := [padded.length % 256]

/-- encode_to_ogg_opus (encode.rs:21-103).  Channel counts other than 1 or 2 are
rejected up front (encode.rs:28-35).  Otherwise the ID header page, the comment
header page, and then one audio packet per 960-samples-per-channel chunk are
written, granule position advancing by 960 per frame (encode.rs:51-102).  Creation
of the external libopus encoder (encode.rs:37-46) is modelled as succeeding. -/
def encode_to_ogg_opus (samples : List ℚ) (sample_rate channels : ℕ) :
    Except String (List OggPacket) :=
  if channels = 1 ∨ channels = 2 then
    let frameSamples := 960 * channels
    let audio :=
      (chunksOf frameSamples samples).enum.map
        (fun p =>
          { data := opus_encode_float (padChunk frameSamples p.2)
            lastInPage := true
            granule := 960 * (p.1 + 1) })
    Except.ok
      ({ data := id_header channels sample_rate, lastInPage := true, granule := 0 } ::
        { data := comment_header, lastInPage := true, granule := 0 } :: audio)
  else
    Except.error "Unsupported channel count"

/-- Stand-in for one LAME mono frame encode (encode.rs:151-160); opaque bytes. -/
def mp3_encode_mono (chunk : List ℚ) : List ℕ := [chunk.length % 256]

/-- Stand-in for one LAME interleaved stereo frame encode (encode.rs:166-175); opaque bytes. -/
def mp3_encode_stereo (chunk : List ℚ) : List ℕ := [chunk.length / 2 % 256]

/-- Stand-in for the final LAME flush (encode.rs:187-197); opaque bytes. -/
def mp3_flush : List ℕ := [255]

/-- The per-chunk loop of encode_to_mp3 (encode.rs:149-184), also returning the
number of frame-encode calls performed, so that rejection before any encoding work
is expressible.  A chunk met while `channels` is neither 1 nor 2 aborts with
Unsupported channel count before encoding that chunk. -/
def mp3_loop (channels : ℕ) : List (List ℚ) → List ℕ → ℕ → Except String (List ℕ) × ℕ
  | [], acc, count => (Except.ok acc, count)
  | chunk :: rest, acc, count =>
    if channels = 1 then
      mp3_loop channels rest (acc ++ mp3_encode_mono chunk) (count + 1)
    else if channels = 2 then
      mp3_loop channels rest (acc ++ mp3_encode_stereo chunk) (count + 1)
    else
      (Except.error "Unsupported channel count", count)

/-- encode_to_mp3 (encode.rs:105-200).  The builder configuration happens first
(encode.rs:114-143): `set_num_channels(channels as u8)` hands the low byte of the
u16 channel count to the external LAME library, which accepts only 1 or 2 — that
external validation is modelled by the `% 256` guard.  The other setters and
`build()` are modelled as succeeding.  Then the chunk loop runs and the encoder is
flushed.  The second component counts frame-encode calls. -/
def encode_to_mp3 (samples : List ℚ) (_sample_rate channels : ℕ) :
    Except String (List ℕ) × ℕ :=
  if channels % 256 = 1 ∨ channels % 256 = 2 then
    match mp3_loop channels (chunksOf (1152 * channels) samples) [] 0 with
    | (Except.ok bytes, count) => (Except.ok (bytes ++ mp3_flush), count)
    | (Except.error e, count) => (Except.error e, count)
  else
    (Except.error "Unsupported number of channels", 0)

/-- The audio format enum (config/types.rs:208-213). -/
inductive AudioFormat where
  | Opus
  | Mp3
deriving DecidableEq

/-- The derived Debug rendering of AudioFormat, as interpolated by the
format string of generate_filename (audio/mod.rs:240). -/
def audioFormatDebug : AudioFormat → String
  | AudioFormat.Opus => "Opus"
  | AudioFormat.Mp3 => "Mp3"

/-- The handwritten Display implementation for AudioFormat
(config/types.rs:223-230), which renders lowercase. -/
def audioFormatDisplay : AudioFormat → String
  | AudioFormat.Opus => "opus"
  | AudioFormat.Mp3 => "mp3"

/-- The character set the filename sanitizer replaces (audio/mod.rs:238). -/
def illegalChars : List Char :=
  ['/', '\\', '?', '%', '*', ':', '|', '"', '<', '>', '.']

/-- The window-title sanitizer of generate_filename (audio/mod.rs:236-239):
`chars().map(...).collect()`, written on the character list so the kernel can
evaluate it. -/
def sanitizeWindowTitle (title : String) : String :=
  String.mk (title.data.map (fun c => if illegalChars.contains c then '_' else c))

/-- AudioRecorder::generate_filename (audio/mod.rs:229-241), with the foreground
window title and the unix timestamp passed in explicitly (the source reads them
from the OS).  The extension is interpolated with the Debug formatter. -/
def generate_filename (fieldName windowTitle : String) (timestamp : ℕ)
    (fmt : AudioFormat) : String :=
  fieldName ++ "_" ++ sanitizeWindowTitle windowTitle ++ "_" ++ toString timestamp
    ++ "." ++ audioFormatDebug fmt

/-- Flattened byte stream of an Ogg packet list; page framing beyond packet order
belongs to the external ogg crate. -/
def oggPacketBytes (packets : List OggPacket) : List ℕ :=
  (packets.map OggPacket.data).flatten

/-- encode (encode.rs:9-19): dispatch on the configured format. -/
def encode (format : AudioFormat) (samples : List ℚ) (sample_rate channels : ℕ) :
    Except String (List ℕ) :=
  match format with
  | AudioFormat.Opus => (encode_to_ogg_opus samples sample_rate channels).map oggPacketBytes
  | AudioFormat.Mp3 => (encode_to_mp3 samples sample_rate channels).1

/-- The AudioRecorder session state visible to the state-machine claims
(audio/mod.rs:19-26): the recording-active flag, the shared sample buffer, and a
ghost count of capture threads spawned so far. -/
structure RecorderState where
  isRecording : Bool
  audioBuffer : List ℚ
  capThreads : ℕ
deriving DecidableEq

/-- AudioRecorder::start_recording (audio/mod.rs:126-159): if the flag is already
set, return the Already recording error without touching anything; otherwise set
the flag, clear the buffer, and spawn the capture thread.  The pair carries the
Result together with the post-state. -/
def start_recording (s : RecorderState) : Except String Unit × RecorderState :=
  if s.isRecording then
    (Except.error "Already recording", s)
  else
    (Except.ok (),
      { isRecording := true, audioBuffer := [], capThreads := s.capThreads + 1 })

/-- Outcomes of the external AnkiConnect client and of `fs::write`, injected as an
oracle so every error path of the save step is coverable. -/
structure AnkiOracle where
  mediaDir : Except String String
  writeResult : Except String Unit
  latestNoteId : Except String ℕ
  updateResult : Except String Unit

/-- Externally observable side effects of the save step: NoteStore RPCs and the
media-file write. -/
inductive ExtCall where
  | getMediaDir
  | writeFile (name : String)
  | getLatestNote
  | updateField (field content : String)
deriving DecidableEq

/-- AudioRecorder::save_to_anki (audio/mod.rs:208-227): fetch the media directory,
write the file, fetch the latest note id, update the note field with the
`[sound:...]` reference.  Each step is attempted in order and the first failure
aborts; the list records the external calls actually performed. -/
def save_to_anki (o : AnkiOracle) (fieldName filename : String) :
    Except String Unit × List ExtCall :=
  match o.mediaDir with
  | Except.error e => (Except.error e, [ExtCall.getMediaDir])
  | Except.ok _dir =>
    match o.writeResult with
    | Except.error e => (Except.error e, [ExtCall.getMediaDir, ExtCall.writeFile filename])
    | Except.ok _ =>
      match o.latestNoteId with
      | Except.error e =>
        (Except.error e,
          [ExtCall.getMediaDir, ExtCall.writeFile filename, ExtCall.getLatestNote])
      | Except.ok _id =>
        (o.updateResult,
          [ExtCall.getMediaDir, ExtCall.writeFile filename, ExtCall.getLatestNote,
            ExtCall.updateField fieldName ("[sound:" ++ filename ++ "]")])

/-- The audio configuration fields consumed by the stop path (config/types.rs:164-169;
the recorder hardcodes 2 channels, audio/mod.rs:33). -/
structure AudioCfg where
  fieldName : String
  format : AudioFormat
  sampleRate : ℕ

/-- The processing pipeline of stop_recording_and_save after the buffer snapshot
(audio/mod.rs:178-204): empty-buffer check, normalize, trim at threshold 0.01,
silent-after-trim check, encode with 2 channels, filename generation, save. -/
def stopOutcome (audio_data : List ℚ) (cfg : AudioCfg) (o : AnkiOracle)
    (windowTitle : String) (timestamp : ℕ) : Except String Unit × List ExtCall :=
  if audio_data.isEmpty then
    (Except.error "No audio data recorded", [])
  else
    let normalized_data := normalize_audio audio_data
    let trimmed := trim_silence normalized_data (mkRat 1 100)
    if trimmed.isEmpty then
      (Except.error "Audio is silent after trimming", [])
    else
      match encode cfg.format trimmed cfg.sampleRate 2 with
      | Except.error e => (Except.error e, [])
      | Except.ok _data =>
        let filename := generate_filename cfg.fieldName windowTitle timestamp cfg.format
        save_to_anki o cfg.fieldName filename

/-- AudioRecorder::stop_recording_and_save (audio/mod.rs:162-205): the flag is
cleared first (mod.rs:164-167) and no later statement of the function writes it, so
the post-state always carries `isRecording = false`; then the snapshot of the
buffer is processed by the pipeline.  Result, post-state, and performed external
calls are returned. -/
def stop_recording_and_save (s : RecorderState) (cfg : AudioCfg) (o : AnkiOracle)
    (windowTitle : String) (timestamp : ℕ) :
    Except String Unit × RecorderState × List ExtCall :=
  let p := stopOutcome s.audioBuffer cfg o windowTitle timestamp
  (p.1, { s with isRecording := false }, p.2)

/-- Atomic actions of the two threads alive during a stop: the capture thread
observing the flag (audio/mod.rs:90-97) and appending a decoded sample
(audio/mod.rs:110-111), and the control flow clearing the flag (mod.rs:164-167),
sleeping (mod.rs:170), and cloning the buffer (mod.rs:173-176).  `joinCapture`
models a true thread join; the source never performs it. -/
inductive Act where
  | observeFlag
  | append (x : ℚ)
  | setFlagFalse
  | sleepMs (n : ℕ)
  | snapshotBuffer
  | joinCapture
deriving DecidableEq

/-- Program counter of the capture thread: about to re-check the flag, committed to
an append after having observed the flag true, or exited its loop. -/
inductive CapturePC where
  | ready
  | willAppend
  | exited
deriving DecidableEq

/-- Shared state of the two threads during a stop. -/
structure SysState where
  flag : Bool
  buffer : List ℚ
  snapshot : Option (List ℚ)
  pc : CapturePC
deriving DecidableEq

/-- Small-step semantics of one atomic action; `none` marks an action whose guard
does not hold.  Sleeping changes no shared state and imposes no synchronization; a
true join is enabled only once the capture thread has exited. -/
def step (s : SysState) (a : Act) : Option SysState :=
  match a with
  | Act.observeFlag =>
    match s.pc with
    | CapturePC.ready =>
      some { s with pc := if s.flag then CapturePC.willAppend else CapturePC.exited }
    | _ => none
  | Act.append x =>
    match s.pc with
    | CapturePC.willAppend =>
      some { s with buffer := s.buffer ++ [x], pc := CapturePC.ready }
    | _ => none
  | Act.setFlagFalse => some { s with flag := false }
  | Act.sleepMs _ => some s
  | Act.snapshotBuffer => some { s with snapshot := some s.buffer }
  | Act.joinCapture => if s.pc = CapturePC.exited then some s else none

/-- Run a list of atomic actions, failing if any guard fails. -/
def runTrace : List Act → SysState → Option SysState
  | [], s => some s
  | a :: rest, s =>
    match step s a with
    | none => none
    | some s2 => runTrace rest s2

/-- Actions belonging to the stopping control flow. -/
def isStopAct : Act → Bool
  | Act.setFlagFalse => true
  | Act.sleepMs _ => true
  | Act.snapshotBuffer => true
  | Act.joinCapture => true
  | _ => false

/-- The synchronization actions stop_recording_and_save performs before reading the
buffer, in program order (audio/mod.rs:164-176): clear the flag, sleep a fixed
100 ms, clone the buffer.  No join, no acknowledgement. -/
def stopperProgram : List Act :=
  [Act.setFlagFalse, Act.sleepMs 100, Act.snapshotBuffer]

/-- Initial state for the race scenario: still recording, buffer empty, capture
thread at its flag check. -/
def initSys : SysState :=
  { flag := true, buffer := [], snapshot := none, pc := CapturePC.ready }

/-- An interleaving in which the capture thread passes its flag check and then is
descheduled for longer than the fixed sleep: its append lands only after the
control flow has cloned the buffer. -/
def raceTrace : List Act :=
  [Act.observeFlag, Act.setFlagFalse, Act.sleepMs 100, Act.snapshotBuffer, Act.append 1]

/-! Helper lemmas about the peak fold. -/

theorem rmul_eq_mul (a b : ℚ) : rmul a b = a * b := by
  unfold rmul
  rw [Rat.divInt_eq_div]
  push_cast
  rw [← div_mul_div_comm, Rat.num_div_den, Rat.num_div_den]

theorem rdivq_eq_div (a b : ℚ) : rdivq a b = a / b := by
  unfold rdivq
  rw [Rat.divInt_eq_div]
  push_cast
  have h1 : ((b.den : ℚ)) / (b.num : ℚ) = b⁻¹ := by
    conv_rhs => rw [← Rat.num_div_den b]
    rw [inv_div]
  calc (a.num : ℚ) * (b.den : ℚ) / ((a.den : ℚ) * (b.num : ℚ))
      = ((a.num : ℚ) / (a.den : ℚ)) * ((b.den : ℚ) / (b.num : ℚ)) :=
        (div_mul_div_comm _ _ _ _).symm
  _ = a * b⁻¹ := by rw [Rat.num_div_den, h1]
  _ = a / b := (div_eq_mul_inv a b).symm

theorem mkRat_19_20 : (mkRat 19 20 : ℚ) = 19/20 := by
  norm_num [Rat.mkRat_eq_div]

theorem rabs_eq_abs (x : ℚ) : rabs x = |x| := by
  unfold rabs
  rcases lt_or_ge x 0 with h | h
  · rw [if_pos h, abs_of_neg h]
  · rw [if_neg (not_lt.mpr h), abs_of_nonneg h]

theorem rmax_eq_max (a b : ℚ) : rmax a b = max a b := by
  unfold rmax
  rcases lt_or_ge a b with h | h
  · rw [if_pos h, max_eq_right (le_of_lt h)]
  · rw [if_neg (not_lt.mpr h), max_eq_left h]

theorem peak_fun_eq : (fun (m x : ℚ) => rmax m (rabs x)) = fun m x => max m |x| := by
  funext m x
  rw [rmax_eq_max, rabs_eq_abs]

theorem peakAmplitude_eq (l : List ℚ) :
    peakAmplitude l = l.foldl (fun m x => max m |x|) 0 := by
  unfold peakAmplitude
  rw [peak_fun_eq]

theorem le_foldl_max (l : List ℚ) : ∀ a : ℚ, a ≤ l.foldl (fun m x => max m |x|) a := by
  induction l with
  | nil => intro a; exact le_refl a
  | cons x xs ih =>
    intro a
    calc a ≤ max a |x| := le_max_left a |x|
    _ ≤ xs.foldl (fun m x => max m |x|) (max a |x|) := ih (max a |x|)

theorem abs_le_foldl_max (l : List ℚ) :
    ∀ a x : ℚ, x ∈ l → |x| ≤ l.foldl (fun m x => max m |x|) a := by
  induction l with
  | nil => intro a x hx; cases hx
  | cons z zs ih =>
    intro a x hx
    rcases List.mem_cons.mp hx with h | h
    · subst h
      calc |x| ≤ max a |x| := le_max_right a |x|
      _ ≤ zs.foldl (fun m x => max m |x|) (max a |x|) := le_foldl_max zs (max a |x|)
    · exact ih (max a |z|) x h

theorem peakAmplitude_nonneg (l : List ℚ) : 0 ≤ peakAmplitude l := by
  rw [peakAmplitude_eq]
  exact le_foldl_max l 0

theorem abs_le_peakAmplitude (l : List ℚ) (x : ℚ) (hx : x ∈ l) : |x| ≤ peakAmplitude l := by
  rw [peakAmplitude_eq]
  exact abs_le_foldl_max l 0 x hx

theorem foldl_max_map_mul (c : ℚ) (hc : 0 ≤ c) (l : List ℚ) :
    ∀ a : ℚ, (l.map (fun x => x * c)).foldl (fun m x => max m |x|) (a * c) =
      l.foldl (fun m x => max m |x|) a * c := by
  have hmono : Monotone fun y : ℚ => y * c := fun u v huv =>
    mul_le_mul_of_nonneg_right huv hc
  induction l with
  | nil => intro a; rfl
  | cons x xs ih =>
    intro a
    have habs : |x * c| = |x| * c := by rw [abs_mul, abs_of_nonneg hc]
    have hmax : max (a * c) (|x| * c) = max a |x| * c := (hmono.map_max).symm
    simp only [List.map_cons, List.foldl_cons, habs, hmax]
    exact ih (max a |x|)

theorem peakAmplitude_map_mul (c : ℚ) (hc : 0 ≤ c) (l : List ℚ) :
    peakAmplitude (l.map (fun x => x * c)) = peakAmplitude l * c := by
  rw [peakAmplitude_eq, peakAmplitude_eq]
  have h := foldl_max_map_mul c hc l 0
  rw [zero_mul] at h
  exact h

/-! Helper lemmas characterizing position and rposition. -/

theorem position_eq_none_iff (p : ℚ → Bool) (l : List ℚ) :
    position p l = none ↔ ∀ x ∈ l, p x = false := by
  induction l with
  | nil => simp [position]
  | cons x xs ih =>
    by_cases hp : p x = true
    · simp [position, hp]
    · simp only [Bool.not_eq_true] at hp
      simp [position, hp, Option.map_eq_none', ih]

theorem rposition_eq_none_iff (p : ℚ → Bool) (l : List ℚ) :
    rposition p l = none ↔ ∀ x ∈ l, p x = false := by
  induction l with
  | nil => simp [rposition]
  | cons x xs ih =>
    simp only [rposition]
    rcases h : rposition p xs with _ | k
    · have hxs := ih.mp h
      by_cases hp : p x = true
      · simp [hp]
      · simp only [Bool.not_eq_true] at hp
        simp only [hp, Bool.false_eq_true, if_false, List.mem_cons, true_iff]
        intro y hy
        rcases hy with hy | hy
        · subst hy; exact hp
        · exact hxs y hy
    · constructor
      · intro hfalse; cases hfalse
      · intro hall
        have hxs : ∀ y ∈ xs, p y = false := fun y hy => hall y (List.mem_cons_of_mem x hy)
        rw [ih.mpr hxs] at h
        cases h

theorem position_some_spec (p : ℚ → Bool) (l : List ℚ) :
    ∀ i : ℕ, position p l = some i → ∃ x, l.get? i = some x ∧ p x = true := by
  induction l with
  | nil => intro i h; cases h
  | cons z zs ih =>
    intro i h
    by_cases hp : p z = true
    · simp [position, hp] at h
      subst h
      exact ⟨z, rfl, hp⟩
    · simp only [Bool.not_eq_true] at hp
      simp only [position, hp, Bool.false_eq_true, if_false] at h
      rcases Option.map_eq_some'.mp h with ⟨i0, hi0, hadd⟩
      subst hadd
      rcases ih i0 hi0 with ⟨x, hget, hx⟩
      exact ⟨x, by simpa using hget, hx⟩

theorem rposition_some_spec (p : ℚ → Bool) (l : List ℚ) :
    ∀ j : ℕ, rposition p l = some j → ∃ x, l.get? j = some x ∧ p x = true := by
  induction l with
  | nil => intro j h; cases h
  | cons z zs ih =>
    intro j h
    simp only [rposition] at h
    rcases hr : rposition p zs with _ | k
    · rw [hr] at h
      by_cases hp : p z = true
      · simp [hp] at h
        subst h
        exact ⟨z, rfl, hp⟩
      · simp only [Bool.not_eq_true] at hp
        simp [hp] at h
    · rw [hr] at h
      simp only [Option.some.injEq] at h
      subst h
      rcases ih k hr with ⟨x, hget, hx⟩
      exact ⟨x, by simpa using hget, hx⟩

theorem rposition_lt_length (p : ℚ → Bool) (l : List ℚ) :
    ∀ j : ℕ, rposition p l = some j → j < l.length := by
  intro j h
  rcases rposition_some_spec p l j h with ⟨x, hget, _⟩
  exact (List.get?_eq_some.mp hget).1

theorem rposition_max (p : ℚ → Bool) (l : List ℚ) :
    ∀ j : ℕ, rposition p l = some j →
      ∀ k, j < k → ∀ y, l.get? k = some y → p y = false := by
  induction l with
  | nil => intro j h; cases h
  | cons z zs ih =>
    intro j h k hjk y hy
    simp only [rposition] at h
    rcases hr : rposition p zs with _ | k0
    · rw [hr] at h
      by_cases hp : p z = true
      · simp [hp] at h
        subst h
        rcases k with _ | k1
        · cases hjk
        · have hall := (rposition_eq_none_iff p zs).mp hr
          have : zs.get? k1 = some y := by simpa using hy
          exact hall y (List.get?_mem this)
      · simp only [Bool.not_eq_true] at hp
        simp [hp] at h
    · rw [hr] at h
      simp only [Option.some.injEq] at h
      subst h
      rcases k with _ | k1
      · cases hjk
      · have : zs.get? k1 = some y := by simpa using hy
        exact ih k0 hr k1 (Nat.lt_of_succ_lt_succ hjk) y this

theorem position_of_first (p : ℚ → Bool) (l : List ℚ) :
    ∀ i : ℕ, (∃ x, l.get? i = some x ∧ p x = true) →
      (∀ k, k < i → ∀ y, l.get? k = some y → p y = false) →
      position p l = some i := by
  induction l with
  | nil =>
    intro i hi _
    rcases hi with ⟨x, hget, _⟩
    cases hget
  | cons z zs ih =>
    intro i hi hmin
    rcases i with _ | i0
    · rcases hi with ⟨x, hget, hx⟩
      simp only [List.get?_cons_zero, Option.some.injEq] at hget
      subst hget
      simp [position, hx]
    · have hz : p z = false := hmin 0 (Nat.succ_pos i0) z rfl
      have hi0 : ∃ x, zs.get? i0 = some x ∧ p x = true := by
        rcases hi with ⟨x, hget, hx⟩
        exact ⟨x, by simpa using hget, hx⟩
      have hmin0 : ∀ k, k < i0 → ∀ y, zs.get? k = some y → p y = false := by
        intro k hk y hy
        exact hmin (k + 1) (Nat.succ_lt_succ hk) y (by simpa using hy)
      simp [position, hz, ih i0 hi0 hmin0]

theorem rposition_of_last (p : ℚ → Bool) (l : List ℚ) :
    ∀ j : ℕ, (∃ x, l.get? j = some x ∧ p x = true) →
      (∀ k, k < l.length → j < k → ∀ y, l.get? k = some y → p y = false) →
      rposition p l = some j := by
  induction l with
  | nil =>
    intro j hj _
    rcases hj with ⟨x, hget, _⟩
    cases hget
  | cons z zs ih =>
    intro j hj hmax
    rcases j with _ | j0
    · rcases hj with ⟨x, hget, hx⟩
      simp only [List.get?_cons_zero, Option.some.injEq] at hget
      subst hget
      have hnone : rposition p zs = none := by
        rw [rposition_eq_none_iff]
        intro y hy
        rcases List.get_of_mem hy with ⟨⟨k, hk⟩, hget⟩
        have : zs.get? k = some y := by
          rw [List.get?_eq_get hk, hget]
        exact hmax (k + 1) (Nat.succ_lt_succ hk) (Nat.succ_pos k) y (by simpa using this)
      simp [rposition, hnone, hx]
    · have hj0 : ∃ x, zs.get? j0 = some x ∧ p x = true := by
        rcases hj with ⟨x, hget, hx⟩
        exact ⟨x, by simpa using hget, hx⟩
      have hmax0 : ∀ k, k < zs.length → j0 < k → ∀ y, zs.get? k = some y → p y = false := by
        intro k hk hjk y hy
        exact hmax (k + 1) (by simpa using Nat.succ_lt_succ hk)
          (Nat.succ_lt_succ hjk) y (by simpa using hy)
      simp [rposition, ih j0 hj0 hmax0]

/-! Bridging lemmas between the Bool-valued index test and the searches. -/

theorem aboveAt_true_iff (s : List ℚ) (t : ℚ) (k : ℕ) :
    aboveAt s t k = true ↔ ∃ y, s.get? k = some y ∧ decide (t < rabs y) = true := by
  unfold aboveAt
  rcases h : s.get? k with _ | y
  · simp
  · simp

theorem aboveAt_false_imp (s : List ℚ) (t : ℚ) (k : ℕ) (hk : aboveAt s t k = false) :
    ∀ y, s.get? k = some y → decide (t < rabs y) = false := by
  intro y hy
  unfold aboveAt at hk
  rw [hy] at hk
  exact hk

/-- C1 (counterexample).  The claim says normalize returns the vector unchanged when
its peak lies in [0.7, 1.0].  The vector [4/5] has peak 4/5 ∈ [0.7, 1.0], yet
normalize_audio rescales it to [19/20]: the source scales whenever 0 < peak < 1. -/
theorem c1_counterexample :
    (mkRat 4 5 : ℚ) = 4/5 ∧ (mkRat 19 20 : ℚ) = 19/20 ∧
    (7:ℚ)/10 ≤ 4/5 ∧ (4:ℚ)/5 ≤ 1 ∧
    peakAmplitude [(mkRat 4 5 : ℚ)] = mkRat 4 5 ∧
    normalize_audio [(mkRat 4 5 : ℚ)] = [(mkRat 19 20 : ℚ)] ∧
    normalize_audio [(mkRat 4 5 : ℚ)] ≠ [(mkRat 4 5 : ℚ)] := by
  refine ⟨by norm_num [Rat.mkRat_eq_div], mkRat_19_20, by norm_num, by norm_num,
    by decide, by decide, by decide⟩

/-- C1 (amended).  normalize_audio returns the vector unchanged when its peak is 0
or at least 1; otherwise (0 < peak < 1) it multiplies every sample by 0.95/peak,
after which every output magnitude is at most 0.95 and the new peak is exactly 0.95
(exact rational arithmetic standing in for f32). -/
theorem c1_normalize_audio_amended (s : List ℚ) :
    (peakAmplitude s = 0 ∨ 1 ≤ peakAmplitude s → normalize_audio s = s) ∧
    (0 < peakAmplitude s → peakAmplitude s < 1 →
      normalize_audio s = s.map (fun x => x * (19/20 / peakAmplitude s)) ∧
      (∀ y ∈ normalize_audio s, |y| ≤ 19/20) ∧
      peakAmplitude (normalize_audio s) = 19/20) := by
  constructor
  · intro h
    unfold normalize_audio
    rw [if_neg]
    rintro ⟨h0, h1⟩
    rcases h with h | h
    · rw [h] at h0; exact lt_irrefl 0 h0
    · exact absurd h1 (not_lt.mpr h)
  · intro h0 h1
    have hcond : 0 < peakAmplitude s ∧ peakAmplitude s < 1 := ⟨h0, h1⟩
    have hfun : (fun x => rmul x (rdivq (mkRat 19 20) (peakAmplitude s))) =
        fun x : ℚ => x * (19/20 / peakAmplitude s) := by
      funext x
      rw [rmul_eq_mul, rdivq_eq_div, mkRat_19_20]
    have hmap : normalize_audio s = s.map (fun x => x * (19/20 / peakAmplitude s)) := by
      unfold normalize_audio
      rw [if_pos hcond, hfun]
    have hc : (0:ℚ) ≤ 19/20 / peakAmplitude s :=
      div_nonneg (by norm_num) (le_of_lt h0)
    have hpne : peakAmplitude s ≠ 0 := ne_of_gt h0
    have hcancel : peakAmplitude s * (19/20 / peakAmplitude s) = 19/20 := by
      rw [mul_comm]
      exact div_mul_cancel₀ (19/20) hpne
    refine ⟨hmap, ?_, ?_⟩
    · intro y hy
      rw [hmap] at hy
      rcases List.mem_map.mp hy with ⟨x, hx, hxy⟩
      subst hxy
      have habs : |x * (19/20 / peakAmplitude s)| = |x| * (19/20 / peakAmplitude s) := by
        rw [abs_mul, abs_of_nonneg hc]
      rw [habs]
      calc |x| * (19/20 / peakAmplitude s)
          ≤ peakAmplitude s * (19/20 / peakAmplitude s) :=
            mul_le_mul_of_nonneg_right (abs_le_peakAmplitude s x hx) hc
      _ = 19/20 := hcancel
    · rw [hmap, peakAmplitude_map_mul _ hc s, hcancel]

/-- C1 (witness): the amended theorem applied to the vector [1/2]. -/
theorem c1_witness :
    (0 < peakAmplitude [(mkRat 1 2 : ℚ)] ∧ peakAmplitude [(mkRat 1 2 : ℚ)] < 1) ∧
    peakAmplitude (normalize_audio [(mkRat 1 2 : ℚ)]) = 19/20 :=
  ⟨by decide,
    ((c1_normalize_audio_amended [(mkRat 1 2 : ℚ)]).2 (by decide) (by decide)).2.2⟩

/-- C2 (counterexample).  The claim says a vector with no sample above the
threshold trims to the empty range; but on [1/1000] at threshold 1/100 the source's
`unwrap_or(0)` / `unwrap_or(len)` defaults return the whole slice. -/
theorem c2_counterexample :
    (∀ x ∈ [(1:ℚ)], ¬ ((2:ℚ) < |x|)) ∧
    trim_silence [(1:ℚ)] 2 = [(1:ℚ)] ∧
    trim_silence [(1:ℚ)] 2 ≠ [] := by
  refine ⟨?_, by decide, by decide⟩
  intro x hx
  rcases List.mem_singleton.mp hx with rfl
  norm_num

/-- C2 (amended).  trim_silence returns exactly the sub-range s[i..j+1] where i is
the first and j the last index with magnitude above the threshold; when no sample
exceeds the threshold it returns the whole slice (not the empty range). -/
theorem c2_trim_silence_amended (s : List ℚ) (t : ℚ) :
    ((∀ x ∈ s, |x| ≤ t) → trim_silence s t = s) ∧
    (∀ i j, IsFirstAbove s t i → IsLastAbove s t j →
      trim_silence s t = (s.drop i).take (j + 1 - i)) := by
  constructor
  · intro hall
    have hfalse : ∀ x ∈ s, (fun x => decide (t < rabs x)) x = false := by
      intro x hx
      simp only [decide_eq_false_iff_not, not_lt, rabs_eq_abs]
      exact hall x hx
    have hpos : position (fun x => decide (t < rabs x)) s = none :=
      (position_eq_none_iff _ s).mpr hfalse
    have hrpos : rposition (fun x => decide (t < rabs x)) s = none :=
      (rposition_eq_none_iff _ s).mpr hfalse
    unfold trim_silence trimStart trimEnd
    rw [hpos, hrpos]
    simp [List.take_length]
  · intro i j hfirst hlast
    rcases hfirst with ⟨hi, hmin⟩
    rcases hlast with ⟨hj, hmax⟩
    rcases (aboveAt_true_iff s t i).mp hi with ⟨x, hxget, hx⟩
    rcases (aboveAt_true_iff s t j).mp hj with ⟨z, hzget, hz⟩
    have hpos : position (fun x => decide (t < rabs x)) s = some i := by
      apply position_of_first _ s i ⟨x, hxget, hx⟩
      intro k hk y hy
      exact aboveAt_false_imp s t k (hmin k hk) y hy
    have hrpos : rposition (fun x => decide (t < rabs x)) s = some j := by
      apply rposition_of_last _ s j ⟨z, hzget, hz⟩
      intro k hklen hjk y hy
      exact aboveAt_false_imp s t k (hmax k hklen hjk) y hy
    unfold trim_silence trimStart trimEnd
    rw [hpos, hrpos]
    simp

/-- C2 (witness): the amended theorem applied to [0, 1, 0] at threshold 1/2, whose
only above-threshold sample sits at index 1. -/
theorem c2_witness :
    (IsFirstAbove [(0:ℚ), 1, 0] (mkRat 1 2) 1 ∧ IsLastAbove [(0:ℚ), 1, 0] (mkRat 1 2) 1) ∧
    trim_silence [(0:ℚ), 1, 0] (mkRat 1 2) = ([(0:ℚ), 1, 0].drop 1).take (1 + 1 - 1) :=
  ⟨⟨by decide, by decide⟩,
    (c2_trim_silence_amended [(0:ℚ), 1, 0] (mkRat 1 2)).2 1 1 (by decide) (by decide)⟩

/-- C10 (confirmed).  For every sample slice and threshold the computed start index
is at most the computed end index, and the end index is at most the slice length,
so the slice operation `&samples[start..end]` is always in bounds (never panics);
trim_silence is exactly that slice. -/
theorem c10_trim_silence_in_bounds (s : List ℚ) (t : ℚ) :
    trimStart s t ≤ trimEnd s t ∧ trimEnd s t ≤ s.length ∧
    trim_silence s t =
      (s.drop (trimStart s t)).take (trimEnd s t - trimStart s t) := by
  refine ⟨?_, ?_, rfl⟩
  · unfold trimStart trimEnd
    rcases hpos : position (fun x => decide (t < rabs x)) s with _ | i
    · exact Nat.zero_le _
    · rcases hrpos : rposition (fun x => decide (t < rabs x)) s with _ | j
      · exfalso
        rcases position_some_spec _ s i hpos with ⟨x, hget, hx⟩
        have hall := (rposition_eq_none_iff _ s).mp hrpos
        rw [hall x (List.get?_mem hget)] at hx
        cases hx
      · show i ≤ j + 1
        by_contra hcon
        push_neg at hcon
        have hji : j < i := Nat.lt_of_succ_lt hcon
        rcases position_some_spec _ s i hpos with ⟨x, hget, hx⟩
        have hxf := rposition_max _ s j hrpos i hji x hget
        rw [hxf] at hx
        cases hx
  · unfold trimEnd
    rcases hrpos : rposition (fun x => decide (t < rabs x)) s with _ | j
    · exact Nat.le_refl s.length
    · exact Nat.succ_le_of_lt (rposition_lt_length _ s j hrpos)

/-- C3 (code_bug evaluation).  On the nonempty all-zero buffer [0, 0] the stop
pipeline does not return the silent-recording error: trim_silence returns the whole
buffer (its searches default to the full range), the emptiness check at
audio/mod.rs:188 never fires, and the recording is encoded and saved — all four
NoteStore/file side effects happen.  The claim says SilentRecording with no file
write and no NoteStore calls. -/
theorem c3_silent_buffer_reaches_save :
    (stop_recording_and_save (RecorderState.mk true [0, 0] 1)
        (AudioCfg.mk "SentenceAudio" AudioFormat.Opus 48000)
        (AnkiOracle.mk (Except.ok "media") (Except.ok ()) (Except.ok 5) (Except.ok ()))
        "Notepad" 1700000000).1 = Except.ok () ∧
    (stop_recording_and_save (RecorderState.mk true [0, 0] 1)
        (AudioCfg.mk "SentenceAudio" AudioFormat.Opus 48000)
        (AnkiOracle.mk (Except.ok "media") (Except.ok ()) (Except.ok 5) (Except.ok ()))
        "Notepad" 1700000000).2.2 =
      [ExtCall.getMediaDir,
        ExtCall.writeFile "SentenceAudio_Notepad_1700000000.Opus",
        ExtCall.getLatestNote,
        ExtCall.updateField "SentenceAudio"
          "[sound:SentenceAudio_Notepad_1700000000.Opus]"] ∧
    trim_silence (normalize_audio [(0:ℚ), 0]) (mkRat 1 100) = [(0:ℚ), 0] := by
  refine ⟨rfl, by decide, by decide⟩

/-- C4 (code_bug evaluation).  The stop sequence embedded from
audio/mod.rs:164-176 contains no join; in a valid interleaving in which the
capture thread has passed its flag check and is descheduled across the whole fixed
100 ms sleep, its append lands after the buffer snapshot, so the snapshot misses a
sample and differs from the final buffer — the sleep does not prevent the race the
claim says is prevented. -/
theorem c4_stop_sleeps_and_can_race :
    Act.joinCapture ∉ stopperProgram ∧
    raceTrace.filter isStopAct = stopperProgram ∧
    ∃ final, runTrace raceTrace initSys = some final ∧
      final.buffer = [(1:ℚ)] ∧ final.snapshot = some [] ∧
      final.snapshot ≠ some final.buffer := by
  refine ⟨by decide, by decide,
    ⟨SysState.mk false [(1:ℚ)] (some []) CapturePC.ready, by decide, rfl, rfl, by decide⟩⟩

/-- C5 (code_bug evaluation).  generate_filename interpolates the format with the
Debug formatter, producing extension .Opus, while the handwritten Display
implementation (and the claim) spell it lowercase .opus. -/
theorem c5_generate_filename_debug_extension :
    generate_filename "SentenceAudio" "Notepad" 1700000000 AudioFormat.Opus =
      "SentenceAudio_Notepad_1700000000.Opus" ∧
    audioFormatDisplay AudioFormat.Opus = "opus" ∧
    generate_filename "SentenceAudio" "Notepad" 1700000000 AudioFormat.Opus ≠
      "SentenceAudio_Notepad_1700000000.opus" := by
  refine ⟨rfl, rfl, by decide⟩

theorem chunksOf_ne_nil (n : ℕ) (x : ℚ) (xs : List ℚ) : chunksOf n (x :: xs) ≠ [] := by
  unfold chunksOf
  rcases n with _ | m
  · simp
  · simp [List.length_cons, chunksGo]

/-- C6 (amended).  For every sample vector, sample rate and channel count other
than 1 or 2, provided the vector is nonempty or the count's low byte (the u16→u8
cast handed to the external LAME channel setter) is also not 1 or 2: the Opus path
rejects immediately with Unsupported channel count, and the MP3 path returns an
error having performed zero frame-encode calls.  (With an empty vector and a count
such as 257 whose low byte is 1, the MP3 path's in-loop check is never reached and
the function succeeds — see the counterexample.) -/
theorem c6_encode_rejects_bad_channels (samples : List ℚ) (sr c : ℕ)
    (h1 : c ≠ 1) (h2 : c ≠ 2)
    (h3 : samples ≠ [] ∨ (c % 256 ≠ 1 ∧ c % 256 ≠ 2)) :
    encode_to_ogg_opus samples sr c = Except.error "Unsupported channel count" ∧
    (∃ e, (encode_to_mp3 samples sr c).1 = Except.error e) ∧
    (encode_to_mp3 samples sr c).2 = 0 := by
  have hopus : encode_to_ogg_opus samples sr c = Except.error "Unsupported channel count" := by
    unfold encode_to_ogg_opus
    rw [if_neg]
    rintro (h | h)
    · exact h1 h
    · exact h2 h
  by_cases hg : c % 256 = 1 ∨ c % 256 = 2
  · have hs : samples ≠ [] := by
      rcases h3 with hs | ⟨ha, hb⟩
      · exact hs
      · rcases hg with hg | hg
        · exact absurd hg ha
        · exact absurd hg hb
    rcases List.exists_cons_of_ne_nil hs with ⟨y, ys, rfl⟩
    rcases List.exists_cons_of_ne_nil (chunksOf_ne_nil (1152 * c) y ys) with ⟨chunk, chs, hch⟩
    have hloop : mp3_loop c (chunksOf (1152 * c) (y :: ys)) [] 0 =
        (Except.error "Unsupported channel count", 0) := by
      rw [hch]
      unfold mp3_loop
      rw [if_neg h1, if_neg h2]
    have hmp3 : encode_to_mp3 (y :: ys) sr c =
        (Except.error "Unsupported channel count", 0) := by
      unfold encode_to_mp3
      rw [if_pos hg, hloop]
    exact ⟨hopus, ⟨"Unsupported channel count", by rw [hmp3]⟩, by rw [hmp3]⟩
  · have hmp3 : encode_to_mp3 samples sr c =
        (Except.error "Unsupported number of channels", 0) := by
      unfold encode_to_mp3
      rw [if_neg hg]
    exact ⟨hopus, ⟨"Unsupported number of channels", by rw [hmp3]⟩, by rw [hmp3]⟩

/-- C6 (witness): the amended theorem applied to the one-sample vector with 3
channels. -/
theorem c6_witness :
    (3 : ℕ) ≠ 1 ∧ (3 : ℕ) ≠ 2 ∧
    (encode_to_ogg_opus [(1:ℚ)] 48000 3 = Except.error "Unsupported channel count" ∧
      (∃ e, (encode_to_mp3 [(1:ℚ)] 48000 3).1 = Except.error e) ∧
      (encode_to_mp3 [(1:ℚ)] 48000 3).2 = 0) :=
  ⟨by decide, by decide,
    c6_encode_rejects_bad_channels [(1:ℚ)] 48000 3 (by decide) (by decide)
      (Or.inl (by decide))⟩

/-- C6 (counterexample).  Channel count 257 is neither 1 nor 2, yet on the empty
sample vector the MP3 path succeeds: the u16→u8 cast hands 1 to the external LAME
channel setter, the chunk loop body (which hosts the repository's own channel
check) never runs, and the encoder is flushed — no EncodeError. -/
theorem c6_counterexample :
    (257 : ℕ) ≠ 1 ∧ (257 : ℕ) ≠ 2 ∧
    (encode_to_mp3 [] 48000 257).1 = Except.ok mp3_flush ∧
    (encode_to_mp3 [] 48000 257).2 = 0 := by
  refine ⟨by decide, by decide, rfl, rfl⟩

/-- C7 (confirmed).  For every input accepted by the Opus path (channel count 1 or
2) the produced stream starts with the ID header packet — OpusHead magic, version
byte 1, the channel count, 16-bit little-endian pre-skip 312, 32-bit little-endian
original sample rate, 16-bit output gain 0, channel mapping family 0, 19 bytes in
all — ending its own first page, followed by the OpusTags comment packet ending
the second page, before any audio packets. -/
theorem c7_ogg_opus_header_layout (samples : List ℚ) (sr c : ℕ) (h : c = 1 ∨ c = 2) :
    (∃ audio, encode_to_ogg_opus samples sr c =
      Except.ok ({ data := id_header c sr, lastInPage := true, granule := 0 } ::
        { data := comment_header, lastInPage := true, granule := 0 } :: audio)) ∧
    (id_header c sr).length = 19 ∧
    (id_header c sr).take 8 = [79, 112, 117, 115, 72, 101, 97, 100] ∧
    (id_header c sr).get? 8 = some 1 ∧
    (id_header c sr).get? 9 = some c ∧
    ((id_header c sr).drop 10).take 2 = [56, 1] ∧
    ((id_header c sr).drop 12).take 4 =
      [sr % 256, sr / 256 % 256, sr / 65536 % 256, sr / 16777216 % 256] ∧
    ((id_header c sr).drop 16).take 2 = [0, 0] ∧
    (id_header c sr).get? 18 = some 0 ∧
    comment_header.take 8 = [79, 112, 117, 115, 84, 97, 103, 115] := by
  have hok : ∀ hc : c = 1 ∨ c = 2, ∃ audio, encode_to_ogg_opus samples sr c =
      Except.ok ({ data := id_header c sr, lastInPage := true, granule := 0 } ::
        { data := comment_header, lastInPage := true, granule := 0 } :: audio) := by
    intro hc
    unfold encode_to_ogg_opus
    rw [if_pos hc]
    exact ⟨_, rfl⟩
  rcases h with rfl | rfl
  · exact ⟨hok (Or.inl rfl), rfl, rfl, rfl, rfl, rfl, rfl, rfl, rfl, rfl⟩
  · exact ⟨hok (Or.inr rfl), rfl, rfl, rfl, rfl, rfl, rfl, rfl, rfl, rfl⟩

/-- C7 (witness): the theorem applied at one mono channel and 48 kHz. -/
theorem c7_witness :
    ∃ audio, encode_to_ogg_opus [] 48000 1 =
      Except.ok ({ data := id_header 1 48000, lastInPage := true, granule := 0 } ::
        { data := comment_header, lastInPage := true, granule := 0 } :: audio) :=
  (c7_ogg_opus_header_layout [] 48000 1 (Or.inl rfl)).1

/-- C8 (confirmed).  start_recording on a session whose recording flag is already
set fails with Already recording and returns the state unchanged: same flag, same
sample buffer, and the same capture-thread count (no second thread spawned). -/
theorem c8_start_on_active_session (s : RecorderState) (h : s.isRecording = true) :
    start_recording s = (Except.error "Already recording", s) := by
  unfold start_recording
  rw [if_pos h]

/-- C8 (witness): the theorem applied to a concrete active session. -/
theorem c8_witness :
    (RecorderState.mk true [(1:ℚ)] 1).isRecording = true ∧
    start_recording (RecorderState.mk true [(1:ℚ)] 1) =
      (Except.error "Already recording", RecorderState.mk true [(1:ℚ)] 1) :=
  ⟨rfl, c8_start_on_active_session (RecorderState.mk true [(1:ℚ)] 1) rfl⟩

/-- C9 (confirmed).  Every error outcome of stop_recording_and_save leaves the
session with the recording flag false (Idle), and a subsequent start_recording on
that post-state succeeds: the flag is cleared at the top of the function and no
later statement sets it. -/
theorem c9_stop_error_leaves_idle (s : RecorderState) (cfg : AudioCfg) (o : AnkiOracle)
    (w : String) (ts : ℕ) (e : String)
    (_h : (stop_recording_and_save s cfg o w ts).1 = Except.error e) :
    (stop_recording_and_save s cfg o w ts).2.1.isRecording = false ∧
    (start_recording (stop_recording_and_save s cfg o w ts).2.1).1 = Except.ok () :=
  ⟨rfl, rfl⟩

/-- C9 (witness): the theorem applied to the empty-buffer session, whose stop
fails with the no-audio error. -/
theorem c9_witness :
    (stop_recording_and_save (RecorderState.mk true [] 0)
        (AudioCfg.mk "SentenceAudio" AudioFormat.Opus 48000)
        (AnkiOracle.mk (Except.ok "media") (Except.ok ()) (Except.ok 5) (Except.ok ()))
        "Notepad" 1700000000).1 = Except.error "No audio data recorded" ∧
    ((stop_recording_and_save (RecorderState.mk true [] 0)
        (AudioCfg.mk "SentenceAudio" AudioFormat.Opus 48000)
        (AnkiOracle.mk (Except.ok "media") (Except.ok ()) (Except.ok 5) (Except.ok ()))
        "Notepad" 1700000000).2.1.isRecording = false ∧
      (start_recording (stop_recording_and_save (RecorderState.mk true [] 0)
        (AudioCfg.mk "SentenceAudio" AudioFormat.Opus 48000)
        (AnkiOracle.mk (Except.ok "media") (Except.ok ()) (Except.ok 5) (Except.ok ()))
        "Notepad" 1700000000).2.1).1 = Except.ok ()) :=
  ⟨rfl,
    c9_stop_error_leaves_idle (RecorderState.mk true [] 0)
      (AudioCfg.mk "SentenceAudio" AudioFormat.Opus 48000)
      (AnkiOracle.mk (Except.ok "media") (Except.ok ()) (Except.ok 5) (Except.ok ()))
      "Notepad" 1700000000 "No audio data recorded" rfl⟩

end G2A
